import Mathlib

/-!
Verification of the interactive Ruby/Rails console session manager:
a shallow embedding of the buffer handling, readiness detection,
command-execution polling loop, terminal-output normalization and
interpreter-error parsing, with theorems about the specified behavior.

Text is modelled as `List Char` (JavaScript strings, one entry per
UTF-16-ish character; all characters used here are in the BMP).
-/

/-- The apostrophe character (U+0027). -/
def apos : Char := Char.ofNat 39

/-- The escape character ESC (U+001B), the start of ANSI sequences. -/
def escChar : Char := Char.ofNat 27

/-- JavaScript whitespace (the class `\\s` and `String.prototype.trim`):
space, tab, LF, VT, FF, CR, NBSP, Ogham space, the U+2000-200A spaces,
LS, PS, NNBSP, MMSP, ideographic space and the BOM. -/
def isJsWs (c : Char) : Bool :=
  c == ' ' || c == '\t' || c == '\n' || c.toNat == 0x0B || c.toNat == 0x0C || c == '\r'
  || c.toNat == 0xA0 || c.toNat == 0x1680 || (0x2000 ≤ c.toNat && c.toNat ≤ 0x200A)
  || c.toNat == 0x2028 || c.toNat == 0x2029 || c.toNat == 0x202F || c.toNat == 0x205F
  || c.toNat == 0x3000 || c.toNat == 0xFEFF

/-- JavaScript line terminators (what `.` in a regex does not match). -/
def isLineTerm (c : Char) : Bool :=
  c == '\n' || c == '\r' || c.toNat == 0x2028 || c.toNat == 0x2029

/-- JavaScript word characters (the class `\w`). -/
def isWordChar (c : Char) : Bool :=
  c.isAlpha || c.isDigit || c == '_'

/-- Drop leading JS whitespace (left half of `trim`). -/
def ltrim (l : List Char) : List Char := l.dropWhile isJsWs

/-- Drop trailing JS whitespace (right half of `trim`). -/
def rtrim (l : List Char) : List Char := (l.reverse.dropWhile isJsWs).reverse

/-- JavaScript `String.prototype.trim`. -/
def jsTrim (l : List Char) : List Char := rtrim (ltrim l)

/-- JavaScript `String.prototype.split('\n')`. -/
def splitNl : List Char → List (List Char)
  | [] => [[]]
  | c :: rest =>
    if c = '\n' then [] :: splitNl rest
    else
      match splitNl rest with
      | l :: ls => (c :: l) :: ls
      | [] => [[c]]

/-- JavaScript `Array.prototype.join('\n')`. -/
def joinNl : List (List Char) → List Char
  | [] => []
  | [l] => l
  | l :: ls => l ++ '\n' :: joinNl ls

/-- Substring test, JavaScript `String.prototype.includes`. -/
def containsSeq (pat : List Char) : List Char → Bool
  | [] => pat.isEmpty
  | c :: t => pat.isPrefixOf (c :: t) || containsSeq pat t

/-- Whether the text contains two consecutive newline characters. -/
def hasNN : List Char → Bool
  | c1 :: c2 :: t => (c1 == '\n' && c2 == '\n') || hasNN (c2 :: t)
  | _ => false

/-- Helper for `collapseNewlines`: `n` pending newlines seen so far; a run of
three or more is emitted as exactly two (the regex `\n{3,}` → `"\n\n"`). -/
def collapseAux : Nat → List Char → List Char
  | n, [] => List.replicate (min n 2) '\n'
  | n, c :: rest =>
    if c = '\n' then collapseAux (n + 1) rest
    else List.replicate (min n 2) '\n' ++ c :: collapseAux 0 rest

/-- JavaScript `output.replace(/\n{3,}/g, '\n\n')`. -/
def collapseNewlines (s : List Char) : List Char := collapseAux 0 s

/-! ### Backtracking matchers for the regular expressions of the source

Each combinator takes a continuation `k` checked on the rest of the input,
giving the full existential (backtracking) semantics of the JS regexes. -/

/-- Match a literal character sequence, then continue. -/
def litThen (pat : List Char) (k : List Char → Bool) (s : List Char) : Bool :=
  match pat, s with
  | [], _ => k s
  | p :: pt, c :: ct => p == c && litThen pt k ct
  | _ :: _, [] => false

/-- Match one character of a class, then continue. -/
def clsThen (p : Char → Bool) (k : List Char → Bool) : List Char → Bool
  | [] => false
  | c :: t => p c && k t

/-- Match zero or more characters of a class (with backtracking), then continue. -/
def starThen (p : Char → Bool) (k : List Char → Bool) : List Char → Bool
  | [] => k []
  | c :: t => k (c :: t) || (p c && starThen p k t)

/-- Match one or more characters of a class, then continue. -/
def plusThen (p : Char → Bool) (k : List Char → Bool) : List Char → Bool :=
  clsThen p (starThen p k)

/-- Match an optional single character of a class, then continue. -/
def optThen (p : Char → Bool) (k : List Char → Bool) (s : List Char) : Bool :=
  clsThen p k s || k s

/-- Does the pattern match starting at some position (JS `RegExp.test`)? -/
def searchTest (m : List Char → Bool) : List Char → Bool
  | [] => m []
  | c :: t => m (c :: t) || searchTest m t

/-- `^[\w-]+\([^)]+\)>\s*$` — a Rails 8 style prompt line such as `app(dev)>`. -/
def railsPromptTest (t : List Char) : Bool :=
  plusThen (fun c => isWordChar c || c == '-')
    (litThen "(".toList
      (plusThen (fun c => c != ')')
        (litThen ")>".toList (starThen isJsWs List.isEmpty)))) t

/-- `^irb\([^)]+\):\d+[*:]?>?\s*$` — an IRB prompt line. -/
def irbPromptLineTest (t : List Char) : Bool :=
  litThen "irb(".toList
    (plusThen (fun c => c != ')')
      (litThen "):".toList
        (plusThen Char.isDigit
          (optThen (fun c => c == '*' || c == ':')
            (optThen (fun c => c == '>') (starThen isJsWs List.isEmpty)))))) t

/-- `^:\d+\s*>?\s*$` — a simple numbered prompt line such as `:001>`. -/
def simplePromptTest (t : List Char) : Bool :=
  litThen ":".toList
    (plusThen Char.isDigit
      (starThen isJsWs
        (optThen (fun c => c == '>') (starThen isJsWs List.isEmpty)))) t

/-- `^>>\s*$` — a Racksh prompt line. -/
def rackshPromptTest (t : List Char) : Bool :=
  litThen ">>".toList (starThen isJsWs List.isEmpty) t

/-- `^[\s\u0000-\u001F]*$` — only whitespace or control characters. -/
def ctrlOnlyTest (t : List Char) : Bool :=
  starThen (fun c => isJsWs c || c.toNat ≤ 31) List.isEmpty t

/-- `irb\([^)]+\):\d+[*:]?>` — unanchored IRB prompt search used by `start`. -/
def irbReadyCore (s : List Char) : Bool :=
  litThen "irb(".toList
    (plusThen (fun c => c != ')')
      (litThen "):".toList
        (plusThen Char.isDigit
          (optThen (fun c => c == '*' || c == ':')
            (litThen ">".toList (fun _ => true)))))) s

/-- `\(.*\):\d+:in.*:.*\(.*Error\)` — structured interpreter-error pattern. -/
def errStructCore (s : List Char) : Bool :=
  litThen "(".toList
    (starThen (fun c => !isLineTerm c)
      (litThen "):".toList
        (plusThen Char.isDigit
          (litThen ":in".toList
            (starThen (fun c => !isLineTerm c)
              (litThen ":".toList
                (starThen (fun c => !isLineTerm c)
                  (litThen "(".toList
                    (starThen (fun c => !isLineTerm c)
                      (litThen "Error)".toList (fun _ => true))))))))))) s

/-- Error detection on cleaned output (`execute`, lines 217-218):
`/\(.*\):\d+:in.*:.*\(.*Error\)/` or a well-known error class name. -/
def hasErrorTest (o : List Char) : Bool :=
  searchTest errStructCore o
  || containsSeq "NameError".toList o
  || containsSeq "SyntaxError".toList o
  || containsSeq "ArgumentError".toList o
  || containsSeq "NoMethodError".toList o

/-! ### ANSI escape-sequence stripping (single-pass `String.replace` with `/g`) -/

/-- Try `/\x1B\[[0-9;]*[a-zA-Z]/` at the start; return the match length. -/
def ansi1Try (s : List Char) : Option Nat :=
  match s with
  | c0 :: c1 :: rest =>
    if c0 = escChar ∧ c1 = '[' then
      let ds := rest.takeWhile (fun c => c.isDigit || c == ';')
      match rest.drop ds.length with
      | c :: _ => if c.isAlpha then some (2 + ds.length + 1) else none
      | [] => none
    else none
  | _ => none

/-- Try `/\x1B\[\?[0-9]*[a-zA-Z]/` at the start; return the match length. -/
def ansi2Try (s : List Char) : Option Nat :=
  match s with
  | c0 :: c1 :: c2 :: rest =>
    if c0 = escChar ∧ c1 = '[' ∧ c2 = '?' then
      let ds := rest.takeWhile Char.isDigit
      match rest.drop ds.length with
      | c :: _ => if c.isAlpha then some (3 + ds.length + 1) else none
      | [] => none
    else none
  | _ => none

/-- Try `/\x1B\[[0-9]*[A-G]/` at the start; return the match length. -/
def ansi3Try (s : List Char) : Option Nat :=
  match s with
  | c0 :: c1 :: rest =>
    if c0 = escChar ∧ c1 = '[' then
      let ds := rest.takeWhile Char.isDigit
      match rest.drop ds.length with
      | c :: _ => if 'A' ≤ c ∧ c ≤ 'G' then some (2 + ds.length + 1) else none
      | [] => none
    else none
  | _ => none

/-- Single left-to-right scan of `String.replace(re, '')` with a global regex:
at each position try the pattern, skip the match on success, else move on one
character. The fuel equals the input length, which always suffices. -/
def replaceScanGo (tm : List Char → Option Nat) : Nat → List Char → List Char
  | 0, s => s
  | _ + 1, [] => []
  | f + 1, c :: rest =>
    match tm (c :: rest) with
    | some n => replaceScanGo tm f (List.drop n (c :: rest))
    | none => c :: replaceScanGo tm f rest

/-- `String.replace(re, '')` for a global regex matched by `tm`. -/
def replaceScan (tm : List Char → Option Nat) (s : List Char) : List Char :=
  replaceScanGo tm s.length s

def stripAnsi1 (s : List Char) : List Char := replaceScan ansi1Try s
def stripAnsi2 (s : List Char) : List Char := replaceScan ansi2Try s
def stripAnsi3 (s : List Char) : List Char := replaceScan ansi3Try s

/-! ### The Output Normalizer (`cleanTerminalOutput`) -/

/-- The prompt/noise filter applied to each (trimmed) line. -/
def keepCore (t : List Char) : Bool :=
  !railsPromptTest t && !irbPromptLineTest t && !simplePromptTest t
  && !rackshPromptTest t && !ctrlOnlyTest t

/-- Keep a line of output (it is not a prompt or whitespace/control noise). -/
def keepLine (line : List Char) : Bool := keepCore (jsTrim line)

/-- `RailsConsoleManager.cleanTerminalOutput`: strip ANSI escapes, drop prompt
and blank lines, collapse 3+ newlines, trim. -/
def cleanTerminalOutput (output : List Char) : List Char :=
  let o1 := stripAnsi3 (stripAnsi2 (stripAnsi1 output))
  let kept := (splitNl o1).filter keepLine
  jsTrim (collapseNewlines (joinNl kept))

/-- The echoed-command stripping inside `execute` (lines 202-212): drop output
lines that trim to a line of the sent command, and Rails prompt lines. -/
def echoStrip (command output : List Char) : List Char :=
  let commandLines := splitNl command
  joinNl ((splitNl output).filter fun line =>
    let trimmed := jsTrim line
    !(commandLines.any fun c => trimmed == jsTrim c) && !railsPromptTest trimmed)

/-! ### The error parser (`parseRailsError` / `formatError` / `formatRailsError`) -/

/-- A Parsed Error Record, as built by `parseRailsError`. -/
structure ParsedError where
  type : List Char
  message : List Char
  file : Option (List Char) := none
  line : Option Nat := none
  method : Option (List Char) := none
  stackTrace : Option (List (List Char)) := none
deriving DecidableEq

/-- Quote characters, the class `['"]`. -/
def isQuoteChar (c : Char) : Bool := c == apos || c == '"'

/-- The suffix after `': '` is matched by `\s*(.+?)` with full backtracking:
greedy whitespace first, then a single `.` (the lazy `(.+?)` followed by an
optional group always captures exactly one character); on failure the
whitespace run is shortened from the right. Returns that character and the
rest of the input after it. -/
def msgScan : List Char → Option (Char × List Char)
  | [] => none
  | c :: rest =>
    if isJsWs c then
      match msgScan rest with
      | some x => some x
      | none => if isLineTerm c then none else some (c, rest)
    else if isLineTerm c then none
    else some (c, rest)

/-- The optional trailing `(?:\s+\(([^)]+)\))?` group. -/
def kindScan (r : List Char) : Option (List Char) :=
  let w := r.takeWhile isJsWs
  if w.isEmpty then none
  else
    match r.drop w.length with
    | '(' :: r2 =>
      let g5 := r2.takeWhile (fun c => c != ')')
      if g5.isEmpty then none
      else
        match r2.drop g5.length with
        | ')' :: _ => some g5
        | _ => none
    | _ => none

/-- Try `/\(([^)]+)\):(\d+):in\s+['"]([^'"]+)['"]:\s*(.+?)(?:\s+\(([^)]+)\))?/`
at the start of `s`; returns (file, line digits, method, message char, kind). -/
def matchStructAt (s : List Char) : Option (List Char × List Char × List Char × Char × Option (List Char)) :=
  match s with
  | '(' :: r1 =>
    let g1 := r1.takeWhile (fun c => c != ')')
    if g1.isEmpty then none
    else
      match r1.drop g1.length with
      | ')' :: ':' :: r3 =>
        let g2 := r3.takeWhile Char.isDigit
        if g2.isEmpty then none
        else
          match r3.drop g2.length with
          | ':' :: 'i' :: 'n' :: r5 =>
            let w1 := r5.takeWhile isJsWs
            if w1.isEmpty then none
            else
              match r5.drop w1.length with
              | q :: r7 =>
                if isQuoteChar q then
                  let g3 := r7.takeWhile (fun c => !isQuoteChar c)
                  if g3.isEmpty then none
                  else
                    match r7.drop g3.length with
                    | q2 :: ':' :: r9 =>
                      if isQuoteChar q2 then
                        match msgScan r9 with
                        | some (m, r10) => some (g1, g2, g3, m, kindScan r10)
                        | none => none
                      else none
                    | _ => none
                else none
              | [] => none
          | _ => none
      | _ => none
  | _ => none

/-- Scan every start position for the structured error pattern (JS `match`). -/
def matchStructSearch : List Char → Option (List Char × List Char × List Char × Char × Option (List Char))
  | [] => matchStructAt []
  | c :: t =>
    match matchStructAt (c :: t) with
    | some x => some x
    | none => matchStructSearch t

/-- The well-known error class names of the simple fallback pattern, in
alternation order. -/
def knownErrNames : List (List Char) :=
  ["NameError".toList, "SyntaxError".toList, "ArgumentError".toList,
   "NoMethodError".toList, "RuntimeError".toList, "StandardError".toList]

/-- Try one alternative of
`/(NameError|SyntaxError|ArgumentError|NoMethodError|RuntimeError|StandardError):\s*(.+)/`
at the start of `s`: the name, a colon, `\s*`, then a greedy `(.+)`. -/
def simpleTryName (nm s : List Char) : Option (List Char × List Char) :=
  if nm.isPrefixOf s then
    match s.drop nm.length with
    | ':' :: r =>
      match msgScan r with
      | some (c, rest) => some (nm, c :: rest.takeWhile (fun ch => !isLineTerm ch))
      | none => none
    | _ => none
  else none

/-- Try every alternative at the start of `s`, in order. -/
def simpleTryAt (s : List Char) : Option (List Char × List Char) :=
  knownErrNames.foldr (fun nm acc => (simpleTryName nm s).orElse (fun _ => acc)) none

/-- Scan every start position for the simple fallback error pattern. -/
def simpleSearch : List Char → Option (List Char × List Char)
  | [] => simpleTryAt []
  | c :: t =>
    match simpleTryAt (c :: t) with
    | some x => some x
    | none => simpleSearch t

/-- `parseInt(lineStr, 10)` on a digit string. -/
def parseDigits (l : List Char) : Nat :=
  l.foldl (fun a c => a * 10 + (c.toNat - 48)) 0

/-- `/^\s+from\s+/` — an indented `from` stack-frame marker. -/
def startsWsFrom (line : List Char) : Bool :=
  let w := line.takeWhile isJsWs
  !w.isEmpty &&
    ("from".toList.isPrefixOf (line.drop w.length)) &&
    (match (line.drop w.length).drop 4 with
     | c :: _ => isJsWs c
     | [] => false)

/-- The stack-trace collection loop of `parseRailsError` (lines 42-53). -/
def scanStack (lines : List (List Char)) : List (List Char) :=
  (lines.foldl
    (fun (acc : Bool × List (List Char)) line =>
      if containsSeq "from".toList line || startsWsFrom line then
        (true, acc.2 ++ [jsTrim line])
      else if acc.1 && !(jsTrim line).isEmpty && !(line.head? == some '(') then
        (acc.1, acc.2 ++ [jsTrim line])
      else acc)
    (false, [])).2

/-- JavaScript `a || b` on strings: `a` unless it is empty/undefined. -/
def jsOrStr (a : Option (List Char)) (b : List Char) : List Char :=
  match a with
  | some s => if s.isEmpty then b else s
  | none => b

/-- `parseRailsError` from the error-parser module. -/
def parseRailsError (output : List Char) : Option ParsedError :=
  match matchStructSearch output with
  | none =>
    match simpleSearch output with
    | some (nm, msg) => some { type := nm, message := jsTrim msg }
    | none => none
  | some (file, lineStr, method, msgChar, errorType) =>
    let st := scanStack (splitNl output)
    some
      { type := jsOrStr errorType (jsOrStr (some file) "Error".toList)
      , message := jsTrim [msgChar]
      , file := some file
      , line := some (parseDigits lineStr)
      , method := some method
      , stackTrace := if st.isEmpty then none else some st }

/-- `formatError` from the error-parser module. -/
def formatError (e : ParsedError) : List Char :=
  let base := "❌ ".toList ++ e.type ++ "\n\n".toList
  let msg := if e.message.isEmpty then [] else "Message: ".toList ++ e.message ++ ['\n']
  let loc :=
    match e.file, e.line with
    | some f, some n =>
      if !f.isEmpty && n != 0 then
        "Location: ".toList ++ f ++ [':'] ++ (Nat.repr n).toList
          ++ (match e.method with
              | some m => if m.isEmpty then [] else " in ".toList ++ [apos] ++ m ++ [apos]
              | none => [])
          ++ ['\n']
      else []
    | _, _ => []
  let stack :=
    match e.stackTrace with
    | some st =>
      if st.isEmpty then []
      else "\nStack Trace:\n".toList ++ joinNl (st.map (fun l => "  ".toList ++ l))
    | none => []
  base ++ msg ++ loc ++ stack

/-- `formatRailsError` from the error-parser module. -/
def formatRailsError (output : List Char) : List Char :=
  match parseRailsError output with
  | some e => formatError e
  | none => output

/-! ### The session manager: buffer handler, readiness, execute -/

/-- `MAX_BUFFER_SIZE` (1 MB limit). -/
def MAX_BUFFER_SIZE : Nat := 1000000

/-- The `onData` handler of `start` (lines 47-54): append, then truncate to
the last 500,000 characters if the 1,000,000-character limit is exceeded. -/
def onData (buffer data : List Char) : List Char :=
  let b := buffer ++ data
  if MAX_BUFFER_SIZE < b.length then b.drop (b.length - 500000) else b

/-- The readiness check polled by `start` (lines 61-89): the loading banner,
an IRB numbered prompt, or `>>` once the buffer has more than 10 characters. -/
def checkReadyDetector (buffer : List Char) : Bool :=
  (containsSeq "Loading ".toList buffer && containsSeq " environment".toList buffer)
  || searchTest irbReadyCore buffer
  || (containsSeq ">>".toList buffer && decide (10 < buffer.length))

/-- An execution result `{success, output, error?}`. -/
structure ExecutionResult where
  success : Bool
  output : List Char
  error : Option (List Char)
deriving DecidableEq

/-- State of the stabilization-polling loop of `execute` (lines 160-193).
`realTime` is the virtual wall-clock in ms (the 500 ms quiet-period waits
advance it without advancing `elapsed`). -/
structure LoopSt where
  elapsed : Nat
  realTime : Nat
  outputStarted : Bool
  lastBufferLength : Nat
deriving DecidableEq

/-- One-to-one translation of the polling loop: every iteration sleeps
100 ms, updates `outputStarted`/`lastBufferLength` from the buffer length
`buf` at the current time, and once output has started and `elapsed > 1000`
compares the buffer length across a 500 ms quiet period, breaking when it is
unchanged. `fuel` bounds the number of iterations (`maxWaitTime / 100 + 1`
always suffices since `elapsed` grows by 100 each round). -/
def execLoop (buf : Nat → Nat) (maxWaitTime : Nat) : Nat → LoopSt → LoopSt
  | 0, s => s
  | fuel + 1, s =>
    if s.elapsed < maxWaitTime then
      if (s.outputStarted || decide (s.lastBufferLength < buf (s.realTime + 100)))
          && decide (1000 < s.elapsed + 100) then
        if buf (s.realTime + 100 + 500) = buf (s.realTime + 100) then
          ⟨s.elapsed + 100, s.realTime + 100 + 500,
           s.outputStarted || decide (s.lastBufferLength < buf (s.realTime + 100)),
           if s.lastBufferLength < buf (s.realTime + 100) then buf (s.realTime + 100)
           else s.lastBufferLength⟩
        else
          execLoop buf maxWaitTime fuel
            ⟨s.elapsed + 100, s.realTime + 100 + 500,
             s.outputStarted || decide (s.lastBufferLength < buf (s.realTime + 100)),
             if s.lastBufferLength < buf (s.realTime + 100) then buf (s.realTime + 100)
             else s.lastBufferLength⟩
      else
        execLoop buf maxWaitTime fuel
          ⟨s.elapsed + 100, s.realTime + 100,
           s.outputStarted || decide (s.lastBufferLength < buf (s.realTime + 100)),
           if s.lastBufferLength < buf (s.realTime + 100) then buf (s.realTime + 100)
           else s.lastBufferLength⟩
    else s

/-- Run the polling loop from the initial state (buffer length recorded at
send time is the reference point, so the relative length starts at 0). -/
def execLoopRun (buf : Nat → Nat) (maxWaitTime : Nat) : LoopSt :=
  execLoop buf maxWaitTime (maxWaitTime / 100 + 1) ⟨0, 0, false, 0⟩

def notReadyMsg : List Char := "Console is not ready".toList
def railsErrorMsg : List Char := "Rails error detected in output".toList
def timeoutErrorMsg : List Char := "Command execution timeout".toList
def noOutputMsg : List Char := "(no output)".toList

/-- The timeout-warning annotation prepended on the timeout path. -/
def timeoutWarning (maxWaitTime : Nat) : List Char :=
  "⚠️ Command execution exceeded timeout (".toList ++ (Nat.repr maxWaitTime).toList
    ++ "ms). Partial output:\n\n".toList

/-- The slow-command advisory prepended when over 50% of the timeout. -/
def slowWarning (elapsed maxWaitTime : Nat) : List Char :=
  "⏱️ Command took ".toList ++ (Nat.repr elapsed).toList
    ++ "ms to complete (timeout: ".toList ++ (Nat.repr maxWaitTime).toList
    ++ "ms)\n\n".toList

/-- The annotation step of `execute` (lines 225-230): prepend the
timeout warning or the slow-command advisory to the cleaned output. -/
def annotate (timedOut warningShown : Bool) (elapsed maxWaitTime : Nat)
    (c2 : List Char) : List Char :=
  if timedOut then timeoutWarning maxWaitTime ++ c2
  else if warningShown then slowWarning elapsed maxWaitTime ++ c2
  else c2

/-- Assemble the `ExecutionResult` from the detected-error flag, the timeout
flag and the annotated output (lines 232-236). -/
def finishResult (hasError timedOut : Bool) (c3 : List Char) : ExecutionResult :=
  { success := !hasError && !timedOut
  , output := if c3.isEmpty then noOutputMsg else c3
  , error :=
      if hasError then some railsErrorMsg
      else if timedOut then some timeoutErrorMsg
      else none }

/-- The body of `execute` after the ready guard (lines 154-236): run the
polling loop over the appended-output schedule `content` (the characters the
child has appended to the buffer since send time, as a function of virtual
time in ms), slice the appended output, strip the echo, clean, detect errors,
annotate, and build the result. -/
def executeRun (command : List Char) (maxWaitTime : Nat) (content : Nat → List Char) :
    ExecutionResult :=
  let fin := execLoopRun (fun t => (content t).length) maxWaitTime
  let timedOut := decide (maxWaitTime ≤ fin.elapsed)
  let warningShown := decide (maxWaitTime / 2 < fin.elapsed)
  let cleanOutput := cleanTerminalOutput (echoStrip command (content fin.realTime))
  let hasError := hasErrorTest cleanOutput
  let c2 := if hasError then formatRailsError cleanOutput else cleanOutput
  finishResult hasError timedOut (annotate timedOut warningShown fin.elapsed maxWaitTime c2)

/-- The manager state relevant to `execute`: the ready flag, whether a child
process handle exists, and the current output buffer. -/
structure ManagerState where
  isReady : Bool
  hasProcess : Bool
  outputBuffer : List Char
deriving DecidableEq

/-- What happens on the child-process side during one `execute` call: either
the child appends output over time (`normal`), or writing/reading throws an
exception carrying a message (`fault`, the catch branch). -/
inductive RunEnv where
  | normal (content : Nat → List Char)
  | fault (msg : List Char)

/-- `RailsConsoleManager.execute`: the not-ready guard, the catch branch, and
the normal run. Returns the result, the state after the call, and the list of
strings written to the child process. -/
def execute (st : ManagerState) (command : List Char) (timeout : Nat) (env : RunEnv) :
    ExecutionResult × ManagerState × List (List Char) :=
  if st.isReady && st.hasProcess then
    match env with
    | .fault msg =>
      ({ success := false, output := [], error := some msg }, st, [command ++ ['\n']])
    | .normal content =>
      (executeRun command timeout content,
       { st with outputBuffer :=
           st.outputBuffer
             ++ content (execLoopRun (fun t => (content t).length) timeout).realTime },
       [command ++ ['\n']])
  else
    ({ success := false, output := [], error := some notReadyMsg }, st, [])

/-! ### Concrete inputs used by the theorems -/

/-- The literal error line of the specification's parser test case. -/
def c4input : List Char :=
  "(NameError):4:in ".toList ++ [apos] ++ "<main>".toList ++ [apos]
    ++ ": undefined local variable or method ".toList ++ [apos, 'a', apos]
    ++ " for main".toList

/-- Appended-output schedule for the end-to-end scenario: the echoed command,
the value and a literal `prompt>` line arrive together 100 ms after send. -/
def c3content : Nat → List Char :=
  fun t => if t < 100 then [] else "1 + 1\n=> 2\nprompt>".toList

/-- The same scenario with a prompt line of the recognized Rails shape. -/
def c3contentAmended : Nat → List Char :=
  fun t => if t < 100 then [] else "1 + 1\n=> 2\napp(dev)>".toList

/-- A ready session state with an empty buffer. -/
def readyState : ManagerState := ⟨true, true, []⟩

/-- Appended-output schedule that grows within every 500 ms window and whose
text contains a well-known error class name. -/
def c2content : Nat → List Char :=
  fun t => "NameError".toList ++ List.replicate (t / 100) 'x'

/-- Input on which stripping one escape sequence uncovers another. -/
def c7input : List Char := [escChar, escChar, '[', '0', 'm', '[', '0', 'm']

/-! ### C3 — end-to-end `execute("1 + 1")` scenario -/

/-- C3 counterexample: in a ready session, when the bytes appended during
`execute("1 + 1")` are exactly `"1 + 1\n=> 2\nprompt>"` (arriving and then
stabilizing well before the 3000 ms timeout), the result is
`{success: true, output: "=> 2\nprompt>"}` — the literal `prompt>` line does
not match any prompt pattern and is NOT stripped, so the output is not
`"=> 2"` as the claim states. -/
theorem c3_counterexample :
    (execute readyState "1 + 1".toList 3000 (RunEnv.normal c3content)).1 =
      { success := true, output := "=> 2\nprompt>".toList, error := none }
    ∧ (execute readyState "1 + 1".toList 3000 (RunEnv.normal c3content)).1.output
        ≠ "=> 2".toList := by
  constructor
  · decide
  · decide

/-- C3 (amended): same scenario, but with the trailing prompt line of a
recognized shape (`app(dev)>`): the echoed command line and the prompt line
are stripped and the result is `{success: true, output: "=> 2", error: none}`. -/
theorem c3_execute_scenario_amended :
    (execute readyState "1 + 1".toList 3000 (RunEnv.normal c3contentAmended)).1 =
      { success := true, output := "=> 2".toList, error := none } := by
  decide

/-! ### C4 — the structured error parser on the spec's literal input -/

/-- C4: on the input
`(NameError):4:in '<main>': undefined local variable or method 'a' for main`
the parser produces category `NameError`, file `NameError`, line 4 and method
`<main>` as the claim says, but the message is the single character `"u"`:
the lazy `(.+?)` followed by an optional group captures exactly one
character, contradicting the pattern documented in the parser's own comment
(`... 'method': message (ErrorType)`). -/
theorem c4_parse_error_message_one_char :
    parseRailsError c4input =
      some { type := "NameError".toList, message := "u".toList,
             file := some "NameError".toList, line := some 4,
             method := some "<main>".toList, stackTrace := none } := by
  decide

/-! ### C5 — readiness detection on a numbered IRB prompt -/

/-- C5: a buffer holding exactly the numbered prompt `irb(main):001:0> ` is
NOT reported ready: the startup regex `irb\([^)]+\):\d+[*:]?>` allows only a
single optional marker character before `>`, so the two-character marker
`:0` makes it fail, although the code's own comment lists
`irb(main):001:0>` as a prompt it checks for. -/
theorem c5_numbered_prompt_not_ready :
    checkReadyDetector "irb(main):001:0> ".toList = false := by
  decide

/-! ### C6 — buffer truncation in the data-received handler -/

/-- C6: the handler's buffer is always a suffix of the plain concatenation;
it equals the concatenation when that is within the 1,000,000-character
limit, and is truncated to exactly the last 500,000 characters when the
limit is exceeded — so its length never exceeds the limit. -/
theorem c6_buffer_truncation (buffer data : List Char) :
    (onData buffer data).length ≤ MAX_BUFFER_SIZE
    ∧ (∃ pre, pre ++ onData buffer data = buffer ++ data)
    ∧ (MAX_BUFFER_SIZE < (buffer ++ data).length →
        (onData buffer data).length = 500000)
    ∧ ((buffer ++ data).length ≤ MAX_BUFFER_SIZE →
        onData buffer data = buffer ++ data) := by
  simp only [MAX_BUFFER_SIZE]
  rw [show onData buffer data =
      (if 1000000 < (buffer ++ data).length then
        (buffer ++ data).drop ((buffer ++ data).length - 500000)
       else buffer ++ data) from rfl]
  by_cases h : 1000000 < (buffer ++ data).length
  · rw [if_pos h]
    refine ⟨?_, ⟨(buffer ++ data).take ((buffer ++ data).length - 500000),
      List.take_append_drop _ _⟩, ?_, ?_⟩
    · rw [List.length_drop]; omega
    · intro _; rw [List.length_drop]; omega
    · intro h2
      exact absurd h (by omega)
  · rw [if_neg h]
    exact ⟨by omega, ⟨[], rfl⟩, fun h2 => absurd h2 h, fun _ => rfl⟩

/-- C6 witness: a 1,000,001-character buffer exceeds the limit and is
truncated to exactly 500,000 characters. -/
theorem c6_buffer_truncation_witness :
    MAX_BUFFER_SIZE < (List.replicate 1000001 'a' ++ ([] : List Char)).length
    ∧ (onData (List.replicate 1000001 'a') []).length = 500000 := by
  have h : MAX_BUFFER_SIZE < (List.replicate 1000001 'a' ++ ([] : List Char)).length := by
    rw [List.append_nil, List.length_replicate]
    decide
  exact ⟨h, (c6_buffer_truncation (List.replicate 1000001 'a') []).2.2.1 h⟩

/-! ### C8 — `execute` on a session that is not ready -/

/-- C8: if the session is not ready or the process handle is gone, `execute`
returns `{success: false, output: "", error: "Console is not ready"}` as a
result (not an exception), writes nothing to the child, and leaves the
session state unchanged. -/
theorem c8_execute_not_ready (st : ManagerState) (command : List Char)
    (timeout : Nat) (env : RunEnv)
    (h : st.isReady = false ∨ st.hasProcess = false) :
    execute st command timeout env =
      ({ success := false, output := [], error := some notReadyMsg }, st, []) := by
  unfold execute
  rcases h with h | h <;> simp [h]

/-- C8 witness: a stopped session (ready flag cleared) rejects a command. -/
theorem c8_execute_not_ready_witness :
    execute ⟨false, true, []⟩ "User.count".toList 30000 (RunEnv.fault []) =
      ({ success := false, output := [], error := some notReadyMsg },
       ⟨false, true, []⟩, []) :=
  c8_execute_not_ready ⟨false, true, []⟩ "User.count".toList 30000
    (RunEnv.fault []) (Or.inl rfl)


/-! ### C2 — the timeout path when output never stabilizes -/

/-- If the buffer length strictly grows over every 500 ms window, no
stabilization check can break the loop, so given enough fuel the loop only
exits with `elapsed ≥ maxWaitTime`. -/
theorem execLoop_growing_times_out (buf : Nat → Nat) (maxW : Nat)
    (hgrow : ∀ t, buf t < buf (t + 500)) :
    ∀ fuel s, maxW ≤ s.elapsed + 100 * fuel →
      maxW ≤ (execLoop buf maxW fuel s).elapsed := by
  intro fuel
  induction fuel with
  | zero => intro s h; simpa using h
  | succ f ih =>
    intro s h
    simp only [execLoop]
    by_cases hlt : s.elapsed < maxW
    · rw [if_pos hlt]
      have hne : ¬ (buf (s.realTime + 100 + 500) = buf (s.realTime + 100)) :=
        Nat.ne_of_gt (hgrow (s.realTime + 100))
      by_cases hc : ((s.outputStarted
            || decide (s.lastBufferLength < buf (s.realTime + 100)))
          && decide (1000 < s.elapsed + 100)) = true
      · rw [if_pos hc, if_neg hne]
        apply ih
        show maxW ≤ s.elapsed + 100 + 100 * f
        omega
      · rw [if_neg hc]
        apply ih
        show maxW ≤ s.elapsed + 100 + 100 * f
        omega
    · rw [if_neg hlt]
      omega

/-- The cleaned output slice computed inside `executeRun` (the partial output
captured at the end of the polling loop, echo-stripped and normalized). -/
def runClean (command : List Char) (maxWaitTime : Nat) (content : Nat → List Char) :
    List Char :=
  cleanTerminalOutput (echoStrip command
    (content (execLoopRun (fun t => (content t).length) maxWaitTime).realTime))

/-- `executeRun` written through `finishResult`/`annotate`/`runClean`. -/
theorem executeRun_eq (command : List Char) (maxWaitTime : Nat)
    (content : Nat → List Char) :
    executeRun command maxWaitTime content =
      finishResult
        (hasErrorTest (runClean command maxWaitTime content))
        (decide (maxWaitTime ≤
          (execLoopRun (fun t => (content t).length) maxWaitTime).elapsed))
        (annotate
          (decide (maxWaitTime ≤
            (execLoopRun (fun t => (content t).length) maxWaitTime).elapsed))
          (decide (maxWaitTime / 2 <
            (execLoopRun (fun t => (content t).length) maxWaitTime).elapsed))
          (execLoopRun (fun t => (content t).length) maxWaitTime).elapsed
          maxWaitTime
          (if hasErrorTest (runClean command maxWaitTime content)
           then formatRailsError (runClean command maxWaitTime content)
           else runClean command maxWaitTime content)) := rfl

/-- A nonempty list followed by anything is nonempty. -/
theorem append_ne_nil_left (a b : List Char) (h : a ≠ []) : a ++ b ≠ [] := by
  cases a with
  | nil => exact absurd rfl h
  | cons c t => simp

/-- `isEmpty` is false on a nonempty list. -/
theorem isEmpty_false_of_ne_nil (a : List Char) (h : a ≠ []) : a.isEmpty = false := by
  cases a with
  | nil => exact absurd rfl h
  | cons c t => rfl

/-- The timeout-warning annotation is never the empty string. -/
theorem timeoutWarning_ne_nil (m : Nat) : timeoutWarning m ≠ [] := by
  unfold timeoutWarning
  intro h
  rcases List.append_eq_nil.mp h with ⟨h1, _⟩
  rcases List.append_eq_nil.mp h1 with ⟨h2, _⟩
  exact absurd h2 (by decide)

theorem annotate_timedOut (w : Bool) (el m : Nat) (c2 : List Char) :
    annotate true w el m c2 = timeoutWarning m ++ c2 := rfl

theorem finishResult_success (h tmo : Bool) (c3 : List Char) :
    (finishResult h tmo c3).success = (!h && !tmo) := rfl

theorem finishResult_error (h tmo : Bool) (c3 : List Char) :
    (finishResult h tmo c3).error =
      (if h then some railsErrorMsg
       else if tmo then some timeoutErrorMsg else none) := rfl

theorem finishResult_output_of_ne (h tmo : Bool) (c3 : List Char) (hne : c3 ≠ []) :
    (finishResult h tmo c3).output = c3 := by
  show (if c3.isEmpty then noOutputMsg else c3) = c3
  rw [isEmpty_false_of_ne_nil c3 hne]
  simp

/-- C2 (amended): if new output keeps arriving at intervals shorter than
500 ms (the buffer length strictly grows over every 500 ms window), `execute`
times out: the result has `success = false`, its output is the
timeout-warning annotation followed by the cleaned partial output, and its
error is the `ExecutionTimeout` message — unless an error pattern is
recognized in the partial output, in which case the output part is the
formatted error and the error message is the `InterpreterError` one. -/
theorem c2_amended_timeout_path (command : List Char) (maxWaitTime : Nat)
    (content : Nat → List Char)
    (hgrow : ∀ t, (content t).length < (content (t + 500)).length) :
    (executeRun command maxWaitTime content).success = false
    ∧ (executeRun command maxWaitTime content).output =
        timeoutWarning maxWaitTime ++
          (if hasErrorTest (runClean command maxWaitTime content)
           then formatRailsError (runClean command maxWaitTime content)
           else runClean command maxWaitTime content)
    ∧ (executeRun command maxWaitTime content).error =
        some (if hasErrorTest (runClean command maxWaitTime content)
              then railsErrorMsg else timeoutErrorMsg) := by
  have hto : maxWaitTime ≤
      (execLoopRun (fun t => (content t).length) maxWaitTime).elapsed := by
    apply execLoop_growing_times_out (fun t => (content t).length) maxWaitTime hgrow
    omega
  have hdec := decide_eq_true hto
  rw [executeRun_eq, hdec, annotate_timedOut]
  refine ⟨?_, ?_, ?_⟩
  · rw [finishResult_success]
    simp
  · exact finishResult_output_of_ne _ _ _
      (append_ne_nil_left _ _ (timeoutWarning_ne_nil maxWaitTime))
  · rw [finishResult_error]
    cases hasErrorTest (runClean command maxWaitTime content) <;> rfl

/-- Ever-growing appended output used by the C2 amended witness. -/
def c2contentW : Nat → List Char := fun t => List.replicate (t / 100 + 1) 'y'

/-- C2 amended witness: a concrete ever-growing run times out. -/
theorem c2_amended_timeout_path_witness :
    (∀ t, (c2contentW t).length < (c2contentW (t + 500)).length)
    ∧ ((executeRun "ping".toList 600 c2contentW).success = false
       ∧ (executeRun "ping".toList 600 c2contentW).output =
           timeoutWarning 600 ++
             (if hasErrorTest (runClean "ping".toList 600 c2contentW)
              then formatRailsError (runClean "ping".toList 600 c2contentW)
              else runClean "ping".toList 600 c2contentW)
       ∧ (executeRun "ping".toList 600 c2contentW).error =
           some (if hasErrorTest (runClean "ping".toList 600 c2contentW)
                 then railsErrorMsg else timeoutErrorMsg)) := by
  have hg : ∀ t, (c2contentW t).length < (c2contentW (t + 500)).length := by
    intro t
    simp only [c2contentW, List.length_replicate]
    omega
  exact ⟨hg, c2_amended_timeout_path "ping".toList 600 c2contentW hg⟩

/-- C2 counterexample: the claim as stated — that the error of a
never-stabilizing run is always the `ExecutionTimeout` one — is false: when
the accumulated partial output happens to contain an error-class name, the
error reported is the `InterpreterError` message instead. -/
theorem c2_counterexample :
    ¬ (∀ (command : List Char) (maxWaitTime : Nat) (content : Nat → List Char),
        (∀ t, (content t).length < (content (t + 500)).length) →
        (executeRun command maxWaitTime content).error = some timeoutErrorMsg) := by
  intro hclaim
  have hg : ∀ t, (c2content t).length < (c2content (t + 500)).length := by
    intro t
    simp only [c2content, List.length_append, List.length_replicate]
    omega
  have h := hclaim "foo".toList 600 c2content hg
  have h2 : (executeRun "foo".toList 600 c2content).error = some railsErrorMsg := by
    decide
  rw [h2] at h
  have h3 : railsErrorMsg = timeoutErrorMsg := by injection h
  exact absurd h3 (by decide)

/-! ### C9 — failed results carry an error, successes do not -/

/-- Whether the fault of a run environment carries a nonempty message. -/
def faultMsgOk : RunEnv → Prop
  | .fault m => m ≠ []
  | .normal _ => True

/-- `finishResult` invariant: `success = false` iff the error is present, and
any present error is one of the fixed nonempty messages. -/
theorem finishResult_invariant (h tmo : Bool) (c3 : List Char) :
    ((finishResult h tmo c3).success = false ↔ (finishResult h tmo c3).error ≠ none)
    ∧ (∀ m, (finishResult h tmo c3).error = some m → m ≠ []) := by
  refine ⟨?_, ?_⟩
  · rw [finishResult_success, finishResult_error]
    cases h <;> cases tmo <;> simp
  · intro m hm
    rw [finishResult_error] at hm
    cases h <;> cases tmo <;> simp at hm <;> (try subst hm) <;> decide

/-- The result of a normal run: `success = false` iff an error is present,
and every present error message is nonempty. -/
theorem executeRun_success_error (command : List Char) (maxW : Nat)
    (content : Nat → List Char) :
    ((executeRun command maxW content).success = false ↔
      (executeRun command maxW content).error ≠ none)
    ∧ (∀ m, (executeRun command maxW content).error = some m → m ≠ []) := by
  rw [executeRun_eq]
  exact finishResult_invariant _ _ _

/-- C9 (amended): every result of `execute` has `success = false` iff its
error field is present; the not-ready, interpreter-error and timeout errors
are fixed nonempty messages, and a caught fault's message is passed through,
so it is nonempty whenever the fault's own message is. -/
theorem c9_amended_success_iff_error (st : ManagerState) (command : List Char)
    (timeout : Nat) (env : RunEnv) :
    ((execute st command timeout env).1.success = false ↔
      (execute st command timeout env).1.error ≠ none)
    ∧ (faultMsgOk env →
        ∀ m, (execute st command timeout env).1.error = some m → m ≠ []) := by
  unfold execute
  by_cases hr : (st.isReady && st.hasProcess) = true
  · rw [if_pos hr]
    cases env with
    | fault msg =>
      refine ⟨by simp, ?_⟩
      intro hok m hm
      simp only [Option.some.injEq] at hm
      rw [← hm]
      exact hok
    | normal content =>
      refine ⟨(executeRun_success_error command timeout content).1, ?_⟩
      intro _ m hm
      exact (executeRun_success_error command timeout content).2 m hm
  · rw [if_neg hr]
    refine ⟨by simp, ?_⟩
    intro _ m hm
    simp only [Option.some.injEq] at hm
    rw [← hm]
    decide

/-- C9 amended witness: a caught fault with a nonempty message. -/
theorem c9_amended_success_iff_error_witness :
    faultMsgOk (RunEnv.fault "boom".toList)
    ∧ (((execute readyState "1 + 1".toList 1000 (RunEnv.fault "boom".toList)).1.success
          = false ↔
        (execute readyState "1 + 1".toList 1000 (RunEnv.fault "boom".toList)).1.error
          ≠ none)
       ∧ ∀ m, (execute readyState "1 + 1".toList 1000
            (RunEnv.fault "boom".toList)).1.error = some m → m ≠ []) := by
  have hok : faultMsgOk (RunEnv.fault "boom".toList) :=
    (by decide : ("boom".toList : List Char) ≠ [])
  have h := c9_amended_success_iff_error readyState "1 + 1".toList 1000
    (RunEnv.fault "boom".toList)
  exact ⟨hok, h.1, h.2 hok⟩

/-- C9 counterexample: the claim that every failed result carries a nonempty
error message is false — a caught fault whose exception message is empty
(e.g. `new Error()`) yields `success = false` with `error = ""`. -/
theorem c9_counterexample :
    ¬ (∀ (st : ManagerState) (command : List Char) (timeout : Nat) (env : RunEnv),
        (execute st command timeout env).1.success = false →
        ∀ m, (execute st command timeout env).1.error = some m → m ≠ []) := by
  intro hclaim
  exact hclaim readyState [] 0 (RunEnv.fault []) (by decide) [] (by decide) rfl

/-! ### C1 — output arrives once, then stops: the loop breaks early -/

/-- The elapsed tick at which the loop first runs its quiet-period check for
output that arrived (all at once) at time `T`: the first 100 ms tick that is
at least `T` and strictly beyond 1000 ms. -/
def stabilizeTick (T : Nat) : Nat := max 1100 (100 * ((T + 99) / 100))

/-- If the buffer stays empty until time `T` and then holds `B > 0` characters
forever (output arrives once and then stops), the polling loop breaks at the
`stabilizeTick T` iteration with a successful quiet-period check, provided
that tick is within the timeout. -/
theorem execLoop_jump_break (T B maxW : Nat) (buf : Nat → Nat)
    (hT : 0 < T) (hB : 0 < B)
    (hbuf : ∀ t, buf t = if t < T then 0 else B)
    (hE : stabilizeTick T < maxW) :
    ∀ fuel s,
      s.realTime = s.elapsed →
      s.lastBufferLength = buf s.elapsed →
      s.outputStarted = decide (T ≤ s.elapsed) →
      s.elapsed % 100 = 0 →
      s.elapsed < stabilizeTick T →
      stabilizeTick T ≤ s.elapsed + 100 * fuel →
      execLoop buf maxW fuel s =
        ⟨stabilizeTick T, stabilizeTick T + 500, true, B⟩ := by
  have hTle : T ≤ stabilizeTick T := by
    simp only [stabilizeTick]
    omega
  have hmod : stabilizeTick T % 100 = 0 := by
    simp only [stabilizeTick]
    omega
  have h1100 : 1100 ≤ stabilizeTick T := by
    simp only [stabilizeTick]
    omega
  intro fuel
  induction fuel with
  | zero =>
    intro s _ _ _ _ h5 h6
    omega
  | succ f ih =>
    intro s h1 h2 h3 h4 h5 h6
    have hlt : s.elapsed < maxW := by omega
    simp only [execLoop]
    rw [if_pos hlt, h1]
    by_cases he : s.elapsed + 100 = stabilizeTick T
    · -- the deciding iteration: the quiet check succeeds and the loop breaks
      have hbe : buf (s.elapsed + 100) = B := by
        rw [hbuf]
        exact if_neg (by omega)
      have hbe5 : buf (s.elapsed + 100 + 500) = B := by
        rw [hbuf]
        exact if_neg (by omega)
      have hos : (s.outputStarted
          || decide (s.lastBufferLength < buf (s.elapsed + 100))) = true := by
        rw [h3, h2, hbe, hbuf s.elapsed]
        by_cases hTs : T ≤ s.elapsed
        · rw [decide_eq_true hTs]
          rfl
        · rw [if_pos (by omega)]
          simp only [Bool.or_eq_true]
          right
          exact decide_eq_true hB
      have hlbl : (if s.lastBufferLength < buf (s.elapsed + 100)
          then buf (s.elapsed + 100) else s.lastBufferLength) = B := by
        rw [h2, hbe, hbuf s.elapsed]
        by_cases hTs : T ≤ s.elapsed
        · rw [if_neg (show ¬ s.elapsed < T by omega), if_neg (lt_irrefl B)]
        · rw [if_pos (show s.elapsed < T by omega), if_pos hB]
      have h1000 : decide (1000 < s.elapsed + 100) = true :=
        decide_eq_true (by omega)
      rw [hos, h1000, if_pos (show (true && true) = true from rfl)]
      rw [if_pos (show buf (s.elapsed + 100 + 500) = buf (s.elapsed + 100) by
        rw [hbe5, hbe])]
      rw [hlbl, he]
    · -- not yet the deciding iteration: no break, recurse
      have hel : s.elapsed + 100 < stabilizeTick T := by omega
      have hcond : ((s.outputStarted
            || decide (s.lastBufferLength < buf (s.elapsed + 100)))
          && decide (1000 < s.elapsed + 100)) = false := by
        by_cases h1000 : 1000 < s.elapsed + 100
        · have heT : s.elapsed + 100 < T := by
            simp only [stabilizeTick] at hel
            omega
          rw [h3, h2, hbuf s.elapsed, hbuf (s.elapsed + 100)]
          rw [if_pos (show s.elapsed < T by omega), if_pos heT]
          rw [decide_eq_false (show ¬ T ≤ s.elapsed by omega)]
          simp
        · rw [decide_eq_false h1000]
          simp
      rw [hcond, if_neg (show ¬ (false = true) by simp)]
      have hlbl' : (if s.lastBufferLength < buf (s.elapsed + 100)
          then buf (s.elapsed + 100) else s.lastBufferLength)
          = buf (s.elapsed + 100) := by
        rw [h2, hbuf s.elapsed, hbuf (s.elapsed + 100)]
        by_cases hTs : T ≤ s.elapsed
        · rw [if_neg (show ¬ s.elapsed < T by omega),
            if_neg (show ¬ s.elapsed + 100 < T by omega), if_neg (lt_irrefl B)]
        · rw [if_pos (show s.elapsed < T by omega)]
          by_cases hTe : s.elapsed + 100 < T
          · rw [if_pos hTe, if_neg (lt_irrefl 0)]
          · rw [if_neg hTe, if_pos hB]
      have hos' : (s.outputStarted
          || decide (s.lastBufferLength < buf (s.elapsed + 100)))
          = decide (T ≤ s.elapsed + 100) := by
        rw [h3, h2, hbuf s.elapsed, hbuf (s.elapsed + 100)]
        by_cases hTs : T ≤ s.elapsed
        · rw [decide_eq_true hTs,
            decide_eq_true (show T ≤ s.elapsed + 100 by omega)]
          rfl
        · rw [decide_eq_false hTs, if_pos (show s.elapsed < T by omega)]
          by_cases hTe : T ≤ s.elapsed + 100
          · rw [if_neg (show ¬ s.elapsed + 100 < T by omega)]
            rw [decide_eq_true hTe, decide_eq_true hB]
            rfl
          · rw [if_pos (show s.elapsed + 100 < T by omega)]
            rw [decide_eq_false hTe, decide_eq_false (lt_irrefl 0)]
            rfl
      rw [hlbl', hos']
      exact ih _ rfl rfl rfl
        (by show (s.elapsed + 100) % 100 = 0; omega)
        (by show s.elapsed + 100 < stabilizeTick T; exact hel)
        (by show stabilizeTick T ≤ s.elapsed + 100 + 100 * f; omega)

/-- C1 (amended): in a ready session, if the child appends some output (all
at once at time `T > 0`, then nothing further — "output arrives once and
then stops") and additionally the first possible quiet-period check tick
`stabilizeTick T` lies within the per-command timeout, then `execute`
resolves at that tick, strictly before the timeout; the result is built with
`timedOut = false`, so `success` is exactly the negation of the
error-pattern check on the cleaned output, the error is the
interpreter-error message or absent, and no timeout-warning annotation is
added (only the slow-command advisory can appear). The extra proviso is
necessary: the stabilization check requires `elapsed > 1000`, so with a
timeout of at most `stabilizeTick T` the quiet period is never observed and
the command times out (see the counterexample below). -/
theorem c1_stabilized_resolves_before_timeout (command : List Char)
    (maxWaitTime T : Nat) (D : List Char) (content : Nat → List Char)
    (hcontent : ∀ t, content t = if t < T then [] else D)
    (hT : 0 < T) (hD : D ≠ [])
    (hbudget : stabilizeTick T < maxWaitTime) :
    (execLoopRun (fun t => (content t).length) maxWaitTime).elapsed = stabilizeTick T
    ∧ (execLoopRun (fun t => (content t).length) maxWaitTime).elapsed < maxWaitTime
    ∧ (executeRun command maxWaitTime content).success
        = !hasErrorTest (cleanTerminalOutput (echoStrip command D))
    ∧ (executeRun command maxWaitTime content).error
        = (if hasErrorTest (cleanTerminalOutput (echoStrip command D))
           then some railsErrorMsg else none)
    ∧ executeRun command maxWaitTime content =
        finishResult (hasErrorTest (cleanTerminalOutput (echoStrip command D))) false
          (annotate false (decide (maxWaitTime / 2 < stabilizeTick T))
            (stabilizeTick T) maxWaitTime
            (if hasErrorTest (cleanTerminalOutput (echoStrip command D))
             then formatRailsError (cleanTerminalOutput (echoStrip command D))
             else cleanTerminalOutput (echoStrip command D))) := by
  have hTle : T ≤ stabilizeTick T := by
    simp only [stabilizeTick]
    omega
  have hbuf : ∀ t, (fun u => (content u).length) t = if t < T then 0 else D.length := by
    intro t
    show (content t).length = _
    rw [hcontent t]
    by_cases h : t < T
    · rw [if_pos h, if_pos h]
      rfl
    · rw [if_neg h, if_neg h]
  have hBpos : 0 < D.length := List.length_pos.mpr hD
  have hrun : execLoopRun (fun t => (content t).length) maxWaitTime =
      ⟨stabilizeTick T, stabilizeTick T + 500, true, D.length⟩ := by
    apply execLoop_jump_break T D.length maxWaitTime _ hT hBpos hbuf hbudget
      (maxWaitTime / 100 + 1) ⟨0, 0, false, 0⟩ rfl
    · show (0 : Nat) = (content 0).length
      rw [hcontent 0, if_pos hT]
      rfl
    · show false = decide (T ≤ 0)
      rw [decide_eq_false (by omega)]
    · rfl
    · show (0 : Nat) < stabilizeTick T
      simp only [stabilizeTick]
      omega
    · show stabilizeTick T ≤ 0 + 100 * (maxWaitTime / 100 + 1)
      omega
  have hfalse : decide (maxWaitTime ≤
      (execLoopRun (fun t => (content t).length) maxWaitTime).elapsed) = false := by
    rw [hrun]
    show decide (maxWaitTime ≤ stabilizeTick T) = false
    exact decide_eq_false (by omega)
  have hcontentD : content
      ((execLoopRun (fun t => (content t).length) maxWaitTime).realTime) = D := by
    rw [hrun]
    show content (stabilizeTick T + 500) = D
    rw [hcontent]
    exact if_neg (by omega)
  have hclean : runClean command maxWaitTime content
      = cleanTerminalOutput (echoStrip command D) := by
    unfold runClean
    rw [hcontentD]
  have hmain : executeRun command maxWaitTime content =
      finishResult (hasErrorTest (cleanTerminalOutput (echoStrip command D))) false
        (annotate false (decide (maxWaitTime / 2 < stabilizeTick T))
          (stabilizeTick T) maxWaitTime
          (if hasErrorTest (cleanTerminalOutput (echoStrip command D))
           then formatRailsError (cleanTerminalOutput (echoStrip command D))
           else cleanTerminalOutput (echoStrip command D))) := by
    rw [executeRun_eq, hclean, hfalse, hrun]
  refine ⟨by rw [hrun], by rw [hrun]; exact hbudget, ?_, ?_, hmain⟩
  · rw [hmain, finishResult_success]
    cases hasErrorTest (cleanTerminalOutput (echoStrip command D)) <;> rfl
  · rw [hmain, finishResult_error]
    cases hasErrorTest (cleanTerminalOutput (echoStrip command D)) <;> rfl

/-- Appended-output schedule for the C1 witness: five characters arrive at
once, 300 ms after send, and nothing afterwards. -/
def c1content : Nat → List Char :=
  fun t => if t < 300 then [] else "=> 2\n".toList

/-- C1 witness: with a 3000 ms timeout, the loop breaks at 1100 ms. -/
theorem c1_stabilized_resolves_before_timeout_witness :
    (execLoopRun (fun t => (c1content t).length) 3000).elapsed = stabilizeTick 300
    ∧ (execLoopRun (fun t => (c1content t).length) 3000).elapsed < 3000
    ∧ (executeRun "1 + 1".toList 3000 c1content).success
        = !hasErrorTest (cleanTerminalOutput (echoStrip "1 + 1".toList "=> 2\n".toList))
    ∧ (executeRun "1 + 1".toList 3000 c1content).error
        = (if hasErrorTest (cleanTerminalOutput (echoStrip "1 + 1".toList "=> 2\n".toList))
           then some railsErrorMsg else none)
    ∧ executeRun "1 + 1".toList 3000 c1content =
        finishResult
          (hasErrorTest (cleanTerminalOutput (echoStrip "1 + 1".toList "=> 2\n".toList)))
          false
          (annotate false (decide (3000 / 2 < stabilizeTick 300))
            (stabilizeTick 300) 3000
            (if hasErrorTest (cleanTerminalOutput (echoStrip "1 + 1".toList "=> 2\n".toList))
             then formatRailsError (cleanTerminalOutput (echoStrip "1 + 1".toList "=> 2\n".toList))
             else cleanTerminalOutput (echoStrip "1 + 1".toList "=> 2\n".toList))) :=
  c1_stabilized_resolves_before_timeout "1 + 1".toList 3000 300 "=> 2\n".toList
    c1content (fun t => rfl) (by decide) (by decide) (by decide)

/-- C1 counterexample: the claim as frozen — for every run where output
arrives and then stops at least 500 ms before the per-command timeout window
is exhausted, `execute` resolves before the timeout with `success` governed
solely by the error-pattern check — is false. With a configured timeout of
1000 ms and a single output burst at 300 ms (700 ms of quiet before the
deadline), the stabilization check at line 185 requires `elapsed > 1000` and
so can never run inside the window: the loop exhausts the timeout, the
result carries the `ExecutionTimeout` error (and the timeout annotation),
and `success` is false although no error pattern occurs in the output. -/
theorem c1_counterexample :
    ¬ (∀ (command : List Char) (maxWaitTime T : Nat) (D : List Char)
          (content : Nat → List Char),
        (∀ t, content t = if t < T then [] else D) →
        0 < T → D ≠ [] → T + 500 ≤ maxWaitTime →
        (executeRun command maxWaitTime content).success
            = !hasErrorTest (cleanTerminalOutput (echoStrip command D))
        ∧ (executeRun command maxWaitTime content).error
            = (if hasErrorTest (cleanTerminalOutput (echoStrip command D))
               then some railsErrorMsg else none)) := by
  intro h
  have h2 := (h "1 + 1".toList 1000 300 "=> 2\n".toList c1content
    (fun t => rfl) (by decide) (by decide) (by decide)).2
  rw [show (executeRun "1 + 1".toList 1000 c1content).error = some timeoutErrorMsg
    from by decide] at h2
  rw [show hasErrorTest (cleanTerminalOutput
      (echoStrip "1 + 1".toList "=> 2\n".toList)) = false from by decide] at h2
  simp at h2

/-! ### Normalizer structure lemmas (shared by C7 and C10) -/

theorem hasNN_cons (c : Char) (x : List Char) (h : hasNN x = true) :
    hasNN (c :: x) = true := by
  cases x with
  | nil => simp [hasNN] at h
  | cons c2 t =>
    show ((c == '\n' && c2 == '\n') || hasNN (c2 :: t)) = true
    rw [h]
    exact Bool.or_true _

theorem hasNN_append_left (a b : List Char) (h : hasNN a = true) :
    hasNN (a ++ b) = true := by
  induction a with
  | nil => simp [hasNN] at h
  | cons c x ih =>
    cases x with
    | nil => simp [hasNN] at h
    | cons c2 t =>
      have he : hasNN (c :: c2 :: t) = ((c == '\n' && c2 == '\n') || hasNN (c2 :: t)) := rfl
      rw [he] at h
      show ((c == '\n' && c2 == '\n') || hasNN (c2 :: (t ++ b))) = true
      cases h1 : (c == '\n' && c2 == '\n') with
      | true => rfl
      | false =>
        rw [h1] at h
        have h2 : hasNN (c2 :: t) = true := h
        have := ih h2
        simp only [List.cons_append] at this
        rw [this]
        exact Bool.or_true _

theorem hasNN_append_right (a b : List Char) (h : hasNN b = true) :
    hasNN (a ++ b) = true := by
  induction a with
  | nil => exact h
  | cons c x ih => exact hasNN_cons c (x ++ b) ih

theorem hasNN_left_of_append (a b : List Char) (h : hasNN (a ++ b) = false) :
    hasNN a = false := by
  cases ha : hasNN a with
  | false => rfl
  | true =>
    have h1 := hasNN_append_left a b ha
    rw [h1] at h
    exact absurd h (by decide)

theorem hasNN_right_of_append (a b : List Char) (h : hasNN (a ++ b) = false) :
    hasNN b = false := by
  cases hb : hasNN b with
  | false => rfl
  | true =>
    have h1 := hasNN_append_right a b hb
    rw [h1] at h
    exact absurd h (by decide)

theorem hasNN_of_noNl (l : List Char) (h : '\n' ∉ l) : hasNN l = false := by
  induction l with
  | nil => rfl
  | cons c x ih =>
    have hc : ¬ c = '\n' := fun hc => h (hc ▸ List.mem_cons_self c x)
    have hx : '\n' ∉ x := fun hm => h (List.mem_cons_of_mem c hm)
    cases x with
    | nil => rfl
    | cons c2 t =>
      show ((c == '\n' && c2 == '\n') || hasNN (c2 :: t)) = false
      rw [ih hx]
      have : (c == '\n') = false := by
        exact beq_eq_false_iff_ne.mpr hc
      rw [this]
      rfl

/-- Lines produced by `splitNl` contain no newline character. -/
theorem splitNl_noNl (s : List Char) : ∀ l ∈ splitNl s, '\n' ∉ l := by
  induction s with
  | nil =>
    intro l hl
    simp only [splitNl, List.mem_singleton] at hl
    subst hl
    exact List.not_mem_nil _
  | cons c rest ih =>
    intro l hl
    simp only [splitNl] at hl
    by_cases hc : c = '\n'
    · rw [if_pos hc] at hl
      rcases List.mem_cons.mp hl with h | h
      · subst h
        exact List.not_mem_nil _
      · exact ih l h
    · rw [if_neg hc] at hl
      rcases hsp : splitNl rest with _ | ⟨l0, ls⟩
      · rw [hsp] at hl
        simp only [List.mem_singleton] at hl
        subst hl
        intro hm
        rcases List.mem_cons.mp hm with h | h
        · exact hc h.symm
        · exact List.not_mem_nil _ h
      · rw [hsp] at hl
        rcases List.mem_cons.mp hl with h | h
        · subst h
          intro hm
          rcases List.mem_cons.mp hm with h | h
          · exact hc h.symm
          · exact ih l0 (hsp ▸ List.mem_cons_self l0 ls) h
        · exact ih l (hsp ▸ List.mem_cons_of_mem l0 h)

/-- `splitNl` never returns the empty list of lines. -/
theorem splitNl_ne_nil (s : List Char) : splitNl s ≠ [] := by
  cases s with
  | nil => simp [splitNl]
  | cons c rest =>
    simp only [splitNl]
    by_cases hc : c = '\n'
    · rw [if_pos hc]
      simp
    · rw [if_neg hc]
      rcases hsp : splitNl rest with _ | ⟨l0, ls⟩
      · simp
      · simp

/-- A line kept by the filter has a nonempty trimmed form. -/
theorem keepLine_trim_ne (l : List Char) (h : keepLine l = true) : jsTrim l ≠ [] := by
  intro heq
  unfold keepLine at h
  rw [heq] at h
  exact absurd h (by decide)

theorem keepLine_ne_nil (l : List Char) (h : keepLine l = true) : l ≠ [] := by
  intro heq
  subst heq
  exact keepLine_trim_ne [] h rfl

/-- Prepending newline-free text does not affect the double-newline test. -/
theorem hasNN_append_noNl (l r : List Char) :
    '\n' ∉ l → hasNN (l ++ r) = hasNN r := by
  induction l with
  | nil => intro _; rfl
  | cons c x ih =>
    intro hl
    have hc : (c == '\n') = false :=
      beq_eq_false_iff_ne.mpr (fun hc => hl (hc ▸ List.mem_cons_self c x))
    have hx : '\n' ∉ x := fun hm => hl (List.mem_cons_of_mem c hm)
    rcases hxr : x ++ r with _ | ⟨c2, t⟩
    · rw [List.cons_append, hxr]
      have hr : r = [] := (List.append_eq_nil.mp hxr).2
      subst hr
      rfl
    · rw [List.cons_append, hxr]
      show ((c == '\n' && c2 == '\n') || hasNN (c2 :: t)) = hasNN r
      rw [hc, ← hxr, ih hx]
      rfl

/-- Joining nonempty newline-free lines yields no double newline. -/
theorem joinNl_hasNN (ls : List (List Char))
    (hne : ∀ l ∈ ls, l ≠ []) (hnl : ∀ l ∈ ls, '\n' ∉ l) :
    hasNN (joinNl ls) = false := by
  induction ls with
  | nil => rfl
  | cons l ls ih =>
    cases ls with
    | nil => exact hasNN_of_noNl l (hnl l (by simp))
    | cons l2 ls2 =>
      show hasNN (l ++ '\n' :: joinNl (l2 :: ls2)) = false
      rw [hasNN_append_noNl l ('\n' :: joinNl (l2 :: ls2)) (hnl l (by simp))]
      obtain ⟨c2, t2, hc2, hj⟩ :
          ∃ c2 t2, (c2 == '\n') = false ∧ joinNl (l2 :: ls2) = c2 :: t2 := by
        rcases hl2 : l2 with _ | ⟨c2, t2⟩
        · exact absurd rfl (hl2 ▸ hne l2 (by simp))
        · have hc2 : (c2 == '\n') = false := by
            apply beq_eq_false_iff_ne.mpr
            intro hcc
            exact (hl2 ▸ hnl l2 (by simp)) (hcc ▸ List.mem_cons_self c2 t2)
          cases ls2 with
          | nil => exact ⟨c2, t2, hc2, rfl⟩
          | cons l3 ls3 => exact ⟨c2, t2 ++ '\n' :: joinNl (l3 :: ls3), hc2, rfl⟩
      rw [hj]
      have hrec : hasNN (c2 :: t2) = false := by
        rw [← hj]
        exact ih (fun x hx => hne x (by simp [hx])) (fun x hx => hnl x (by simp [hx]))
      show (('\n' == '\n' && c2 == '\n') || hasNN (c2 :: t2)) = false
      rw [hrec, hc2]
      rfl

/-- On text without double newlines, the newline collapse is the identity
(`collapseAux 0`), and from one pending newline it just re-emits it when the
text does not begin with a newline. -/
theorem collapseAux_id (s : List Char) :
    hasNN s = false →
      collapseAux 0 s = s ∧ (s.head? ≠ some '\n' → collapseAux 1 s = '\n' :: s) := by
  induction s with
  | nil =>
    intro _
    exact ⟨rfl, fun _ => rfl⟩
  | cons c t ih =>
    intro h
    have ht : hasNN t = false := by
      cases t with
      | nil => rfl
      | cons c2 t2 =>
        have he : hasNN (c :: c2 :: t2)
            = ((c == '\n' && c2 == '\n') || hasNN (c2 :: t2)) := rfl
        rw [he] at h
        cases h2 : hasNN (c2 :: t2) with
        | false => rfl
        | true => rw [h2] at h; simp at h
    by_cases hc : c = '\n'
    · subst hc
      have hhead : t.head? ≠ some '\n' := by
        cases t with
        | nil => simp
        | cons c2 t2 =>
          have he : hasNN ('\n' :: c2 :: t2)
              = (('\n' == '\n' && c2 == '\n') || hasNN (c2 :: t2)) := rfl
          rw [he] at h
          cases h2 : (c2 == '\n') with
          | false =>
            simp only [List.head?_cons]
            intro hcc
            injection hcc with hcc2
            rw [hcc2] at h2
            simp at h2
          | true => rw [h2] at h; simp at h
      constructor
      · have e1 : collapseAux 0 ('\n' :: t) = collapseAux 1 t := by
          simp [collapseAux]
        rw [e1, (ih ht).2 hhead]
      · intro hh
        simp at hh
    · constructor
      · simp only [collapseAux, if_neg hc]
        rw [(ih ht).1]
        rfl
      · intro _
        simp only [collapseAux, if_neg hc]
        rw [(ih ht).1]
        rfl

/-- The `\n{3,}` collapse is the identity on text without double newlines. -/
theorem collapseNewlines_id (s : List Char) (h : hasNN s = false) :
    collapseNewlines s = s := (collapseAux_id s h).1

/-- The collapse step of the Output Normalizer never fires: after the line
filter there is no blank line left, so the normalizer is trim-of-join. -/
theorem clean_noCollapse (t : List Char) :
    cleanTerminalOutput t =
      jsTrim (joinNl
        ((splitNl (stripAnsi3 (stripAnsi2 (stripAnsi1 t)))).filter keepLine)) := by
  show jsTrim (collapseNewlines (joinNl
      ((splitNl (stripAnsi3 (stripAnsi2 (stripAnsi1 t)))).filter keepLine))) = _
  congr 1
  apply collapseNewlines_id
  apply joinNl_hasNN
  · intro l hl
    exact keepLine_ne_nil l (List.of_mem_filter hl)
  · intro l hl
    exact splitNl_noNl _ l (List.mem_filter.mp hl).1

theorem hasNN_ltrim (s : List Char) (h : hasNN s = false) :
    hasNN (ltrim s) = false := by
  apply hasNN_right_of_append (s.takeWhile isJsWs)
  show hasNN (s.takeWhile isJsWs ++ s.dropWhile isJsWs) = false
  rw [List.takeWhile_append_dropWhile]
  exact h

theorem hasNN_rtrim (s : List Char) (h : hasNN s = false) :
    hasNN (rtrim s) = false := by
  have hdecomp : rtrim s ++ (s.reverse.takeWhile isJsWs).reverse = s := by
    unfold rtrim
    rw [← List.reverse_append, List.takeWhile_append_dropWhile, List.reverse_reverse]
  apply hasNN_left_of_append _ ((s.reverse.takeWhile isJsWs).reverse)
  rw [hdecomp]
  exact h

theorem hasNN_jsTrim (s : List Char) (h : hasNN s = false) :
    hasNN (jsTrim s) = false := hasNN_rtrim _ (hasNN_ltrim _ h)

/-- C10: the Output Normalizer's result never contains a blank line — the
line filter drops every whitespace/control-only line, so the normalized text
has no two consecutive newlines, and the 3+-newline collapse never fires
(the normalizer equals plain trim-of-join of the kept lines). -/
theorem c10_no_blank_lines (t : List Char) :
    hasNN (cleanTerminalOutput t) = false
    ∧ cleanTerminalOutput t =
        jsTrim (joinNl
          ((splitNl (stripAnsi3 (stripAnsi2 (stripAnsi1 t)))).filter keepLine)) := by
  refine ⟨?_, clean_noCollapse t⟩
  rw [clean_noCollapse t]
  apply hasNN_jsTrim
  apply joinNl_hasNN
  · intro l hl
    exact keepLine_ne_nil l (List.of_mem_filter hl)
  · intro l hl
    exact splitNl_noNl _ l (List.mem_filter.mp hl).1

/-! ### Trim algebra (used by C7) -/

theorem dropWhile_idem (p : Char → Bool) (l : List Char) :
    (l.dropWhile p).dropWhile p = l.dropWhile p := by
  induction l with
  | nil => rfl
  | cons c t ih =>
    by_cases hc : p c = true
    · rw [List.dropWhile_cons, if_pos hc]
      exact ih
    · rw [List.dropWhile_cons, if_neg hc, List.dropWhile_cons, if_neg hc]

theorem ltrim_cons (c : Char) (t : List Char) :
    ltrim (c :: t) = if isJsWs c then ltrim t else c :: t := by
  unfold ltrim
  rw [List.dropWhile_cons]

theorem ltrim_idem (l : List Char) : ltrim (ltrim l) = ltrim l :=
  dropWhile_idem isJsWs l

theorem rtrim_idem (l : List Char) : rtrim (rtrim l) = rtrim l := by
  unfold rtrim
  rw [List.reverse_reverse, dropWhile_idem]

theorem rtrim_eq_nil_iff (l : List Char) :
    rtrim l = [] ↔ ∀ x ∈ l, isJsWs x = true := by
  unfold rtrim
  rw [List.reverse_eq_nil_iff, List.dropWhile_eq_nil_iff]
  constructor
  · intro h x hx
    exact h x (List.mem_reverse.mpr hx)
  · intro h x hx
    exact h x (List.mem_reverse.mp hx)

theorem ltrim_eq_nil_iff (l : List Char) :
    ltrim l = [] ↔ ∀ x ∈ l, isJsWs x = true := by
  unfold ltrim
  exact List.dropWhile_eq_nil_iff

theorem rtrim_cons (c : Char) (t : List Char) :
    rtrim (c :: t) =
      if rtrim t = [] then (if isJsWs c then [] else [c]) else c :: rtrim t := by
  unfold rtrim
  rw [show (c :: t).reverse = t.reverse ++ [c] from by simp]
  rw [List.dropWhile_append]
  by_cases h : (t.reverse.dropWhile isJsWs).isEmpty = true
  · rw [if_pos h]
    have h2 : (t.reverse.dropWhile isJsWs).reverse = [] := by
      rcases hx : t.reverse.dropWhile isJsWs with _ | ⟨a, b⟩
      · rfl
      · rw [hx] at h
        simp at h
    rw [if_pos h2]
    by_cases hc : isJsWs c = true
    · rw [if_pos hc]
      rw [show List.dropWhile isJsWs [c] = [] from by
        rw [List.dropWhile_cons, if_pos hc]
        rfl]
      rfl
    · rw [if_neg hc]
      rw [show List.dropWhile isJsWs [c] = [c] from by
        rw [List.dropWhile_cons, if_neg hc]]
      rfl
  · rw [if_neg h]
    have h2 : ¬ ((t.reverse.dropWhile isJsWs).reverse = []) := by
      rw [List.reverse_eq_nil_iff]
      intro hh
      rw [hh] at h
      exact h rfl
    rw [if_neg h2]
    rw [List.reverse_append]
    rfl

theorem ltrim_rtrim_comm (l : List Char) : ltrim (rtrim l) = rtrim (ltrim l) := by
  induction l with
  | nil => rfl
  | cons c t ih =>
    rw [rtrim_cons]
    by_cases hrt : rtrim t = []
    · have hall := (rtrim_eq_nil_iff t).mp hrt
      have hlt : ltrim t = [] := (ltrim_eq_nil_iff t).mpr hall
      rw [if_pos hrt]
      by_cases hc : isJsWs c = true
      · rw [if_pos hc, ltrim_cons, if_pos hc, hlt]
        rfl
      · rw [if_neg hc]
        rw [show ltrim (c :: t) = c :: t from by rw [ltrim_cons, if_neg hc]]
        rw [rtrim_cons, if_pos hrt, if_neg hc]
        rw [ltrim_cons, if_neg hc]
    · rw [if_neg hrt]
      by_cases hc : isJsWs c = true
      · have hR : rtrim (ltrim (c :: t)) = rtrim (ltrim t) := by
          rw [ltrim_cons, if_pos hc]
        rw [hR, ltrim_cons, if_pos hc, ih]
      · have hR : rtrim (ltrim (c :: t)) = rtrim (c :: t) := by
          rw [ltrim_cons, if_neg hc]
        rw [hR, rtrim_cons, if_neg hrt, ltrim_cons, if_neg hc]

theorem jsTrim_ltrim (l : List Char) : jsTrim (ltrim l) = jsTrim l := by
  unfold jsTrim
  rw [ltrim_idem]

theorem jsTrim_rtrim (l : List Char) : jsTrim (rtrim l) = jsTrim l := by
  unfold jsTrim
  rw [ltrim_rtrim_comm, rtrim_idem]

theorem keepLine_ltrim (l : List Char) : keepLine (ltrim l) = keepLine l := by
  unfold keepLine
  rw [jsTrim_ltrim]

theorem keepLine_rtrim (l : List Char) : keepLine (rtrim l) = keepLine l := by
  unfold keepLine
  rw [jsTrim_rtrim]

theorem ltrim_ne_nil_of_trim (l : List Char) (h : jsTrim l ≠ []) : ltrim l ≠ [] := by
  intro hl
  apply h
  unfold jsTrim
  rw [hl]
  rfl

theorem rtrim_ne_nil_of_trim (l : List Char) (h : jsTrim l ≠ []) : rtrim l ≠ [] := by
  intro hl
  apply h
  have hall := (rtrim_eq_nil_iff l).mp hl
  have hlt : ltrim l = [] := (ltrim_eq_nil_iff l).mpr hall
  unfold jsTrim
  rw [hlt]
  rfl

theorem mem_ltrim (l : List Char) (x : Char) (h : x ∈ ltrim l) : x ∈ l := by
  rw [← List.takeWhile_append_dropWhile isJsWs l]
  exact List.mem_append.mpr (Or.inr h)

theorem mem_rtrim (l : List Char) (x : Char) (h : x ∈ rtrim l) : x ∈ l := by
  have h1 : x ∈ l.reverse.dropWhile isJsWs := List.mem_reverse.mp h
  have h2 : x ∈ l.reverse := mem_ltrim l.reverse x h1
  exact List.mem_reverse.mp h2

theorem ltrim_append_of_ne (a b : List Char) (h : ltrim a ≠ []) :
    ltrim (a ++ b) = ltrim a ++ b := by
  unfold ltrim at *
  rw [List.dropWhile_append, isEmpty_false_of_ne_nil _ h]
  simp

theorem rtrim_append_of_ne (a b : List Char) (h : rtrim b ≠ []) :
    rtrim (a ++ b) = a ++ rtrim b := by
  unfold rtrim at *
  rw [List.reverse_append, List.dropWhile_append]
  have hb : (b.reverse.dropWhile isJsWs).isEmpty = false := by
    apply isEmpty_false_of_ne_nil
    intro hh
    apply h
    rw [hh]
    rfl
  rw [hb]
  rw [if_neg (by simp)]
  rw [List.reverse_append, List.reverse_reverse]

/-! ### Edge-trimming of a joined line list (used by C7) -/

/-- Trim the trailing whitespace of the last line of a line list. -/
def rEdge : List (List Char) → List (List Char)
  | [] => []
  | [l] => [rtrim l]
  | l :: ls => l :: rEdge ls

/-- Trim the leading whitespace of the first line and the trailing whitespace
of the last line: this is what trimming the joined text does per-line. -/
def edge : List (List Char) → List (List Char)
  | [] => []
  | l :: ls => rEdge (ltrim l :: ls)

theorem rEdge_cons_of_ne (l : List Char) (ls : List (List Char)) (h : ls ≠ []) :
    rEdge (l :: ls) = l :: rEdge ls := by
  cases ls with
  | nil => exact absurd rfl h
  | cons l2 ls2 => rfl

theorem rEdge_ne_nil (l : List Char) (ls : List (List Char)) :
    rEdge (l :: ls) ≠ [] := by
  cases ls with
  | nil => simp [rEdge]
  | cons l2 ls2 =>
    rw [rEdge_cons_of_ne l (l2 :: ls2) (by simp)]
    simp

theorem joinNl_cons_of_ne (l : List Char) (ls : List (List Char)) (h : ls ≠ []) :
    joinNl (l :: ls) = l ++ '\n' :: joinNl ls := by
  cases ls with
  | nil => exact absurd rfl h
  | cons l2 ls2 => rfl

theorem rtrim_joinNl (ls : List (List Char)) :
    (∀ l ∈ ls, jsTrim l ≠ []) → ls ≠ [] →
      rtrim (joinNl ls) = joinNl (rEdge ls) ∧ rtrim (joinNl ls) ≠ [] := by
  induction ls with
  | nil =>
    intro _ hne
    exact absurd rfl hne
  | cons l ls2 ih =>
    intro h _
    cases ls2 with
    | nil =>
      constructor
      · rfl
      · exact rtrim_ne_nil_of_trim l (h l (by simp))
    | cons l2 ls3 =>
      have ih2 := ih (fun x hx => h x (by simp [hx])) (by simp)
      have hx : rtrim ('\n' :: joinNl (l2 :: ls3))
          = '\n' :: joinNl (rEdge (l2 :: ls3)) := by
        rw [show ('\n' :: joinNl (l2 :: ls3)) = ['\n'] ++ joinNl (l2 :: ls3) from rfl]
        rw [rtrim_append_of_ne _ _ ih2.2, ih2.1]
        rfl
      have heq : rtrim (joinNl (l :: l2 :: ls3))
          = l ++ '\n' :: joinNl (rEdge (l2 :: ls3)) := by
        show rtrim (l ++ '\n' :: joinNl (l2 :: ls3)) = _
        rw [rtrim_append_of_ne _ _ (by rw [hx]; exact List.cons_ne_nil _ _), hx]
      constructor
      · rw [heq, rEdge_cons_of_ne l (l2 :: ls3) (by simp)]
        rw [joinNl_cons_of_ne l (rEdge (l2 :: ls3)) (rEdge_ne_nil l2 ls3)]
      · rw [heq]
        intro hcontra
        rcases List.append_eq_nil.mp hcontra with ⟨_, h2⟩
        exact List.cons_ne_nil _ _ h2

theorem ltrim_joinNl_cons (l : List Char) (ls : List (List Char))
    (h : ltrim l ≠ []) :
    ltrim (joinNl (l :: ls)) = joinNl (ltrim l :: ls) := by
  cases ls with
  | nil => rfl
  | cons l2 ls2 =>
    show ltrim (l ++ '\n' :: joinNl (l2 :: ls2)) = ltrim l ++ '\n' :: joinNl (l2 :: ls2)
    exact ltrim_append_of_ne l _ h

theorem jsTrim_joinNl (ls : List (List Char)) (h : ∀ l ∈ ls, jsTrim l ≠ []) :
    jsTrim (joinNl ls) = joinNl (edge ls) := by
  cases ls with
  | nil => rfl
  | cons l ls2 =>
    show rtrim (ltrim (joinNl (l :: ls2))) = joinNl (rEdge (ltrim l :: ls2))
    rw [ltrim_joinNl_cons l ls2 (ltrim_ne_nil_of_trim l (h l (by simp)))]
    apply (rtrim_joinNl (ltrim l :: ls2) ?_ (by simp)).1
    intro x hx
    rcases List.mem_cons.mp hx with h1 | h1
    · subst h1
      rw [jsTrim_ltrim]
      exact h l (by simp)
    · exact h x (by simp [h1])

theorem splitNl_noNl_id (l : List Char) (h : '\n' ∉ l) : splitNl l = [l] := by
  induction l with
  | nil => rfl
  | cons c t ih =>
    have hc : ¬ c = '\n' := fun hc => h (hc ▸ List.mem_cons_self c t)
    have ht : '\n' ∉ t := fun hm => h (List.mem_cons_of_mem c hm)
    simp only [splitNl, if_neg hc]
    rw [ih ht]

theorem splitNl_append_cons (l r : List Char) (h : '\n' ∉ l) :
    splitNl (l ++ '\n' :: r) = l :: splitNl r := by
  induction l with
  | nil =>
    show splitNl ('\n' :: r) = [] :: splitNl r
    simp [splitNl]
  | cons c t ih =>
    have hc : ¬ c = '\n' := fun hc => h (hc ▸ List.mem_cons_self c t)
    have ht : '\n' ∉ t := fun hm => h (List.mem_cons_of_mem c hm)
    show splitNl (c :: (t ++ '\n' :: r)) = (c :: t) :: splitNl r
    simp only [splitNl, if_neg hc]
    rw [ih ht]

theorem splitNl_joinNl (ls : List (List Char)) :
    ls ≠ [] → (∀ l ∈ ls, '\n' ∉ l) → splitNl (joinNl ls) = ls := by
  induction ls with
  | nil =>
    intro hne _
    exact absurd rfl hne
  | cons l ls2 ih =>
    intro _ hnl
    cases ls2 with
    | nil =>
      show splitNl (joinNl [l]) = [l]
      exact splitNl_noNl_id l (hnl l (by simp))
    | cons l2 ls3 =>
      show splitNl (l ++ '\n' :: joinNl (l2 :: ls3)) = l :: l2 :: ls3
      rw [splitNl_append_cons l _ (hnl l (by simp))]
      rw [ih (by simp) (fun x hx => hnl x (by simp [hx]))]

theorem rEdge_forall (Q : List Char → Prop) (hQ : ∀ l, Q l → Q (rtrim l)) :
    ∀ ls : List (List Char), (∀ l ∈ ls, Q l) → ∀ l ∈ rEdge ls, Q l := by
  intro ls
  induction ls with
  | nil =>
    intro _ l hl
    simp [rEdge] at hl
  | cons l0 ls2 ih =>
    intro h l hl
    cases ls2 with
    | nil =>
      simp only [rEdge, List.mem_singleton] at hl
      subst hl
      exact hQ l0 (h l0 (by simp))
    | cons l2 ls3 =>
      rw [rEdge_cons_of_ne l0 (l2 :: ls3) (by simp)] at hl
      rcases List.mem_cons.mp hl with h1 | h1
      · subst h1
        exact h l (by simp)
      · exact ih (fun x hx => h x (by simp [hx])) l h1

theorem edge_forall (Q : List Char → Prop) (hQl : ∀ l, Q l → Q (ltrim l))
    (hQr : ∀ l, Q l → Q (rtrim l)) :
    ∀ ls : List (List Char), (∀ l ∈ ls, Q l) → ∀ l ∈ edge ls, Q l := by
  intro ls h l hl
  cases ls with
  | nil => simp [edge] at hl
  | cons l0 ls2 =>
    have hall : ∀ x ∈ (ltrim l0 :: ls2), Q x := by
      intro x hx
      rcases List.mem_cons.mp hx with h1 | h1
      · subst h1
        exact hQl l0 (h l0 (by simp))
      · exact h x (by simp [h1])
    exact rEdge_forall Q hQr (ltrim l0 :: ls2) hall l hl

theorem rEdge_idem : ∀ ls : List (List Char), rEdge (rEdge ls) = rEdge ls := by
  intro ls
  induction ls with
  | nil => rfl
  | cons l ls2 ih =>
    cases ls2 with
    | nil =>
      show [rtrim (rtrim l)] = [rtrim l]
      rw [rtrim_idem]
    | cons l2 ls3 =>
      rw [rEdge_cons_of_ne l (l2 :: ls3) (by simp)]
      rw [rEdge_cons_of_ne l (rEdge (l2 :: ls3)) (rEdge_ne_nil l2 ls3)]
      rw [ih]

theorem edge_idem : ∀ ls : List (List Char), edge (edge ls) = edge ls := by
  intro ls
  cases ls with
  | nil => rfl
  | cons l ls2 =>
    cases ls2 with
    | nil =>
      show [rtrim (ltrim (rtrim (ltrim l)))] = [rtrim (ltrim l)]
      rw [ltrim_rtrim_comm (ltrim l), rtrim_idem, ltrim_idem]
    | cons l2 ls3 =>
      show edge (rEdge (ltrim l :: l2 :: ls3)) = rEdge (ltrim l :: l2 :: ls3)
      rw [rEdge_cons_of_ne (ltrim l) (l2 :: ls3) (by simp)]
      show rEdge (ltrim (ltrim l) :: rEdge (l2 :: ls3)) = ltrim l :: rEdge (l2 :: ls3)
      rw [ltrim_idem]
      rw [rEdge_cons_of_ne (ltrim l) (rEdge (l2 :: ls3)) (rEdge_ne_nil l2 ls3)]
      rw [rEdge_idem]

/-! ### Escape stripping is the identity on escape-free text -/

theorem replaceScanGo_id (tm : List Char → Option Nat)
    (htm : ∀ c t n, tm (c :: t) = some n → c = escChar) :
    ∀ f s, escChar ∉ s → replaceScanGo tm f s = s := by
  intro f
  induction f with
  | zero =>
    intro s _
    rfl
  | succ f ih =>
    intro s hs
    cases s with
    | nil => rfl
    | cons c rest =>
      have hnone : tm (c :: rest) = none := by
        cases htm2 : tm (c :: rest) with
        | none => rfl
        | some n =>
          have hc := htm c rest n htm2
          exact absurd (hc ▸ List.mem_cons_self c rest) hs
      rw [show replaceScanGo tm (f + 1) (c :: rest)
          = c :: replaceScanGo tm f rest from by
        simp only [replaceScanGo, hnone]]
      rw [ih rest (fun hm => hs (List.mem_cons_of_mem c hm))]

theorem ansi1Try_esc (c : Char) (t : List Char) (n : Nat)
    (h : ansi1Try (c :: t) = some n) : c = escChar := by
  cases t with
  | nil => simp [ansi1Try] at h
  | cons c1 rest =>
    by_cases hc : c = escChar ∧ c1 = '['
    · exact hc.1
    · simp only [ansi1Try, if_neg hc] at h
      exact absurd h (by simp)

theorem ansi2Try_esc (c : Char) (t : List Char) (n : Nat)
    (h : ansi2Try (c :: t) = some n) : c = escChar := by
  cases t with
  | nil => simp [ansi2Try] at h
  | cons c1 rest =>
    cases rest with
    | nil => simp [ansi2Try] at h
    | cons c2 rest2 =>
      by_cases hc : c = escChar ∧ c1 = '[' ∧ c2 = '?'
      · exact hc.1
      · simp only [ansi2Try, if_neg hc] at h
        exact absurd h (by simp)

theorem ansi3Try_esc (c : Char) (t : List Char) (n : Nat)
    (h : ansi3Try (c :: t) = some n) : c = escChar := by
  cases t with
  | nil => simp [ansi3Try] at h
  | cons c1 rest =>
    by_cases hc : c = escChar ∧ c1 = '['
    · exact hc.1
    · simp only [ansi3Try, if_neg hc] at h
      exact absurd h (by simp)

theorem stripAnsi1_id (s : List Char) (h : escChar ∉ s) : stripAnsi1 s = s :=
  replaceScanGo_id ansi1Try ansi1Try_esc s.length s h

theorem stripAnsi2_id (s : List Char) (h : escChar ∉ s) : stripAnsi2 s = s :=
  replaceScanGo_id ansi2Try ansi2Try_esc s.length s h

theorem stripAnsi3_id (s : List Char) (h : escChar ∉ s) : stripAnsi3 s = s :=
  replaceScanGo_id ansi3Try ansi3Try_esc s.length s h

/-! ### C7 — idempotence of the Output Normalizer -/

/-- Already-normalized escape-free text is a fixed point of the normalizer. -/
theorem clean_fixed (ks : List (List Char))
    (hkeep : ∀ l ∈ ks, keepLine l = true)
    (hnl : ∀ l ∈ ks, '\n' ∉ l)
    (hesc : escChar ∉ jsTrim (joinNl ks)) :
    cleanTerminalOutput (jsTrim (joinNl ks)) = jsTrim (joinNl ks) := by
  cases ks with
  | nil => rfl
  | cons k0 ks2 =>
    have htrim : ∀ l ∈ (k0 :: ks2), jsTrim l ≠ [] :=
      fun l hl => keepLine_trim_ne l (hkeep l hl)
    have hv : jsTrim (joinNl (k0 :: ks2)) = joinNl (edge (k0 :: ks2)) :=
      jsTrim_joinNl _ htrim
    have hQ : ∀ l ∈ edge (k0 :: ks2),
        keepLine l = true ∧ '\n' ∉ l ∧ jsTrim l ≠ [] := by
      apply edge_forall (fun l => keepLine l = true ∧ '\n' ∉ l ∧ jsTrim l ≠ [])
      · intro l hQl
        exact ⟨by rw [keepLine_ltrim]; exact hQl.1,
               fun hm => hQl.2.1 (mem_ltrim l _ hm),
               by rw [jsTrim_ltrim]; exact hQl.2.2⟩
      · intro l hQl
        exact ⟨by rw [keepLine_rtrim]; exact hQl.1,
               fun hm => hQl.2.1 (mem_rtrim l _ hm),
               by rw [jsTrim_rtrim]; exact hQl.2.2⟩
      · intro l hl
        exact ⟨hkeep l hl, hnl l hl, htrim l hl⟩
    have hedgene : edge (k0 :: ks2) ≠ [] := rEdge_ne_nil (ltrim k0) ks2
    rw [hv]
    rw [clean_noCollapse]
    have hescv : escChar ∉ joinNl (edge (k0 :: ks2)) := by
      rw [← hv]
      exact hesc
    rw [stripAnsi1_id _ hescv, stripAnsi2_id _ hescv, stripAnsi3_id _ hescv]
    rw [splitNl_joinNl (edge (k0 :: ks2)) hedgene (fun l hl => (hQ l hl).2.1)]
    rw [List.filter_eq_self.mpr (fun l hl => (hQ l hl).1)]
    rw [jsTrim_joinNl _ (fun l hl => (hQ l hl).2.2)]
    rw [edge_idem]

/-- C7 counterexample: the Output Normalizer is NOT idempotent. On the input
`ESC ESC [ 0 m [ 0 m` the single-pass escape removal leaves the residue
`ESC [ 0 m` in the normalized output, and a second pass strips it. -/
theorem c7_counterexample :
    cleanTerminalOutput (cleanTerminalOutput c7input) ≠ cleanTerminalOutput c7input := by
  decide

/-- C7 (amended): the Output Normalizer is idempotent on every input whose
normalized form contains no residual ESC character (in particular on all
escape-free inputs): no further stripping of escape sequences, prompt lines,
newlines or whitespace occurs on the second pass. -/
theorem c7_amended_idempotent_no_residual_escape (t : List Char)
    (hesc : escChar ∉ cleanTerminalOutput t) :
    cleanTerminalOutput (cleanTerminalOutput t) = cleanTerminalOutput t := by
  have h0 := clean_noCollapse t
  rw [h0] at hesc ⊢
  apply clean_fixed
  · intro l hl
    exact List.of_mem_filter hl
  · intro l hl
    exact splitNl_noNl _ l (List.mem_filter.mp hl).1
  · exact hesc

/-- C7 amended witness: a concrete escape-free input. -/
theorem c7_amended_idempotent_no_residual_escape_witness :
    escChar ∉ cleanTerminalOutput "hello\n\n\n  world  ".toList
    ∧ cleanTerminalOutput (cleanTerminalOutput "hello\n\n\n  world  ".toList)
        = cleanTerminalOutput "hello\n\n\n  world  ".toList := by
  have h : escChar ∉ cleanTerminalOutput "hello\n\n\n  world  ".toList := by decide
  exact ⟨h, c7_amended_idempotent_no_residual_escape _ h⟩
